import Mathlib

/-!
Verification of the pbtsdb core: the PocketBase/TanStack-DB query converter
(`src/query-converter.ts`) and the collection subscription lifecycle manager
(`src/collection.ts`).

The TypeScript source is shallowly embedded: pure functions become Lean
functions over explicit data types, the mutable subscription map becomes an
association list threaded through state-transformer functions, and JavaScript
exceptions become `Except`.  Each embedded definition carries a comment naming
the source construct it mirrors.
-/

namespace Pbtsdb

open String

/-! ### Joining helpers

`String.intercalate` is defined through a tail-recursive worker; we relate it
to a right fold so that the sort and filter joins can be reasoned about
compositionally. -/

/-- Right-fold view of a separator-prefixed join: for `[a, b]` it produces
`sep ++ a ++ sep ++ b`. -/
def joinParts (sep : String) : List String → String
  | [] => ""
  | a :: as => sep ++ a ++ joinParts sep as

/-! ### Query converter data model

`convertToPocketBaseFilter` receives a TanStack DB where-expression IR and
walks it with `parseWhereExpression`, which dispatches on each node's operator
name: comparison and membership leaves get the extracted field-path segments
and the literal value, `and`/`or` nodes get their operands' already-translated
strings, and any operator name without a handler is routed to
`onUnknownOperator`.  The embedding reifies that IR as `WhereExpr` and the
walk as a recursive function; a thrown JavaScript error becomes an
`Except.error`. -/

/-- Scalar JavaScript values reaching `formatValue`.  A `Date` is represented
by its `toISOString()` rendering and any other value by its `String(value)`
coercion, since those library calls are opaque to the embedding. -/
inductive Scalar where
  | null
  | bool (b : Bool)
  | num (n : Int)
  | str (s : String)
  | date (iso : String)
  | other (raw : String)
deriving DecidableEq, Repr

/-- The value attached to a leaf comparison: the `in` handler distinguishes
arrays from single values with `Array.isArray`. -/
inductive LeafValue where
  | scalar (v : Scalar)
  | array (vs : List Scalar)
deriving DecidableEq, Repr

/-- A where-expression IR node: a leaf operator applied to a field path and a
value, or a combinator applied to sub-expressions.  Operator names stay
strings exactly because the source dispatches on them dynamically. -/
inductive WhereExpr where
  | func (name : String) (field : List String) (value : LeafValue)
  | logic (name : String) (operands : List WhereExpr)

/-- Embeds the quote-escaping `value.replace(/"/g, '\\"')` from `formatValue`,
character by character. -/
def escapeQuotesAux : List Char → List Char
  | [] => []
  | c :: cs => if c = '"' then '\\' :: '"' :: escapeQuotesAux cs else c :: escapeQuotesAux cs

/-- String-level wrapper for `escapeQuotesAux`. -/
def escapeQuotes (s : String) : String := ⟨escapeQuotesAux s.data⟩

/-- Embeds `formatValue` from `src/query-converter.ts`: null/true/false become
bare literals, numbers print unquoted, strings are quoted with embedded quotes
escaped, `Date`s are quoted ISO strings, and everything else falls back to its
quoted string coercion. -/
def formatValue : Scalar → String
  | .null => "null"
  | .bool true => "true"
  | .bool false => "false"
  | .num n => toString n
  | .str s => "\"" ++ escapeQuotes s ++ "\""
  | .date iso => "\"" ++ iso ++ "\""
  | .other raw => "\"" ++ raw ++ "\""

/-- Embeds the `in` handler: an empty array yields the always-false
`id = ""`, one array element yields a single `?=` condition (the
`conditions.length === 1` branch), several elements yield a parenthesised
`||`-join of `?=` conditions, and a non-array value is a plain equality. -/
def inHandler (fieldPath : String) : LeafValue → String
  | .array [] => "id = \"\""
  | .array [v] => fieldPath ++ " ?= " ++ formatValue v
  | .array vs =>
    "(" ++ String.intercalate " || " (vs.map (fun v => fieldPath ++ " ?= " ++ formatValue v))
      ++ ")"
  | .scalar v => fieldPath ++ " = " ++ formatValue v

/-- Computable model of JavaScript's `String.prototype.trim`: drop leading and
trailing whitespace.  Provably equal to `String.trim`
(`jsTrim_eq_trim`); stated over character lists so concrete filter strings
evaluate inside the kernel. -/
def jsTrim (s : String) : String :=
  ⟨((s.data.dropWhile Char.isWhitespace).reverse.dropWhile Char.isWhitespace).reverse⟩

/-- Embeds the `conditions.filter(c => c && c.trim() !== '')` step shared by
the `and` and `or` handlers. -/
def nonEmptyConditions (conditions : List String) : List String :=
  conditions.filter (fun c => c != "" && jsTrim c != "")

/-- Embeds the body of the `and`/`or` handlers after filtering: no surviving
condition yields the empty string, a single survivor is returned unwrapped,
and several survivors are joined with the separator and parenthesised. -/
def combineConditions (sep : String) (conditions : List String) : String :=
  match nonEmptyConditions conditions with
  | [] => ""
  | [c] => c
  | cs => "(" ++ String.intercalate sep cs ++ ")"

/-- Comparison handlers apply `formatValue` to whatever value the leaf holds;
an array reaching one of them falls into `formatValue`'s string-coercion
fallback (quoted JavaScript array join, where `null` renders empty). -/
def formatLeafValue : LeafValue → String
  | .scalar v => formatValue v
  | .array vs =>
    "\"" ++ String.intercalate ","
      (vs.map (fun v =>
        match v with
        | .null => ""
        | .bool true => "true"
        | .bool false => "false"
        | .num n => toString n
        | .str s => s
        | .date iso => iso
        | .other raw => raw)) ++ "\""

/-- The error text thrown by `onUnknownOperator`. -/
def unsupportedOperatorMessage (op : String) : String :=
  "Unsupported query operator for PocketBase: \"" ++ op ++ "\". " ++
    "Supported operators: eq, gt, gte, lt, lte, in, and, or"

mutual

/-- Embeds the `parseWhereExpression` walk configured in
`convertToPocketBaseFilter`: each leaf handler joins the field path with `.`
and formats its value, `and`/`or` translate their operands and combine them,
and an unknown operator name raises the unsupported-operator error, which
propagates (`Except` bind) exactly as a thrown error does. -/
def convertWhereExpr : WhereExpr → Except String String
  | .func name field value =>
    let fieldPath := String.intercalate "." field
    if name = "eq" then .ok (fieldPath ++ " = " ++ formatLeafValue value)
    else if name = "gt" then .ok (fieldPath ++ " > " ++ formatLeafValue value)
    else if name = "gte" then .ok (fieldPath ++ " >= " ++ formatLeafValue value)
    else if name = "lt" then .ok (fieldPath ++ " < " ++ formatLeafValue value)
    else if name = "lte" then .ok (fieldPath ++ " <= " ++ formatLeafValue value)
    else if name = "in" then .ok (inHandler fieldPath value)
    else .error (unsupportedOperatorMessage name)
  | .logic name operands =>
    if name = "and" then do
      let conditions ← convertWhereList operands
      pure (combineConditions " && " conditions)
    else if name = "or" then do
      let conditions ← convertWhereList operands
      pure (combineConditions " || " conditions)
    else .error (unsupportedOperatorMessage name)

/-- Translates a combinator's operands in order, stopping at the first error
(a thrown error aborts the whole walk). -/
def convertWhereList : List WhereExpr → Except String (List String)
  | [] => .ok []
  | e :: es => do
    let c ← convertWhereExpr e
    let cs ← convertWhereList es
    pure (c :: cs)

end

/-- Embeds `convertToPocketBaseFilter`'s entry point: `if (!where) return ''`,
else run the walk.  `none` models a `null`/`undefined` where-expression. -/
def convertToPocketBaseFilter : Option WhereExpr → Except String String
  | none => .ok ""
  | some w => convertWhereExpr w

/-- One parsed order-by entry as produced by `parseOrderByExpression`: a field
path and a direction string compared against `'desc'`. -/
structure SortEntry where
  field : List String
  direction : String
deriving DecidableEq, Repr

/-- Embeds `convertToPocketBaseSort`: `if (!orderBy) return ''`, else render
each entry as its `.`-joined field path with a `-` prepended exactly when the
direction is `desc`, and join the rendered entries with `,`. -/
def convertToPocketBaseSort : Option (List SortEntry) → String
  | none => ""
  | some sorts =>
    String.intercalate ","
      (sorts.map (fun sort =>
        let fieldPath := String.intercalate "." sort.field
        let dash := if sort.direction = "desc" then "-" else ""
        dash ++ fieldPath))

/-! ### Collection and realtime events

`setupSubscription` in `src/collection.ts` installs an event handler that
mirrors each incoming PocketBase realtime event into the local TanStack DB
collection through one `collection.utils.writeBatch` call containing the
single write matching the event's action.  The local collection and its
batched-write primitives are external-library collaborators; they are
embedded by their documented contract (keyed insert / replace / delete-by-id,
a batch applied as one atomic function application). -/

/-- A PocketBase record as seen by the event handler: an identifier (the
collection's `getKey` extracts `item.id`) plus opaque remaining fields. -/
structure PBRecord where
  id : String
  payload : String
deriving DecidableEq, Repr

/-- A PocketBase realtime event, `{ action: string; record: T }`. -/
structure RealtimeEvent where
  action : String
  record : PBRecord
deriving DecidableEq, Repr

/-- The three batched-write primitives the handler may invoke. -/
inductive WriteOp where
  | writeInsert (r : PBRecord)
  | writeUpdate (r : PBRecord)
  | writeDelete (id : String)
deriving DecidableEq, Repr

/-- The local reactive collection, keyed by record id. -/
abbrev LocalCollection := List PBRecord

/-- Contract of a single write primitive on the local collection. -/
def applyWriteOp (coll : LocalCollection) : WriteOp → LocalCollection
  | .writeInsert r => coll ++ [r]
  | .writeUpdate r => coll.map (fun x => if x.id = r.id then r else x)
  | .writeDelete i => coll.filter (fun x => x.id != i)

/-- A `writeBatch` applies its ordered writes as one atomic step. -/
def applyBatch (coll : LocalCollection) (ops : List WriteOp) : LocalCollection :=
  ops.foldl applyWriteOp coll

/-- Embeds the `eventHandler` switch in `setupSubscription`: the batch opened
for an event contains exactly the one write selected by `event.action`
(`create` → insert, `update` → update, `delete` → delete by `record.id`), and
no write at all for any other action (the switch has no default case). -/
def eventHandler (event : RealtimeEvent) : List WriteOp :=
  if event.action = "create" then [.writeInsert event.record]
  else if event.action = "update" then [.writeUpdate event.record]
  else if event.action = "delete" then [.writeDelete event.record.id]
  else []

/-- Applies a delivered event sequence: one batch per event, in transport
delivery order. -/
def processEvents (coll : LocalCollection) (events : List RealtimeEvent) : LocalCollection :=
  events.foldl (fun c e => applyBatch c (eventHandler e)) coll

/-! ### Subscription state store and lifecycle

`CollectionFactory` keeps `subscriptions : Map<string, Map<string,
SubscriptionState>>`.  All the claims below concern a single collection name,
so the embedding models one collection's inner map as an association list from
subscription key to state; an absent outer map entry coincides with an inner
map holding no keys.  The `unsubscribe` handle is identified by a numeric tag
(0 for the synchronously-installed placeholder closure), and mutation of a
`SubscriptionState` object that is still in the map is modelled as an update
of the map entry at its key. -/

/-- Embeds the `SubscriptionState` record. -/
structure SubscriptionState where
  unsubscribeId : Nat
  recordId : Option String
  reconnectAttempts : Nat
  isReconnecting : Bool
deriving DecidableEq, Repr

/-- One collection's subscription map, keyed by subscription key
(`recordId || '*'`). -/
abbrev SubscriptionStore := List (String × SubscriptionState)

/-- `Map.get`: the state stored at a key, if present. -/
def storeLookup : SubscriptionStore → String → Option SubscriptionState
  | [], _ => none
  | (k, v) :: rest, key => if k = key then some v else storeLookup rest key

/-- `Map.set`: replace the entry at the key, or add one. -/
def storeSet : SubscriptionStore → String → SubscriptionState → SubscriptionStore
  | [], key, st => [(key, st)]
  | (k, v) :: rest, key, st =>
    if k = key then (key, st) :: rest else (k, v) :: storeSet rest key st

/-- In-place mutation of the state object held at a key (a no-op when the key
is absent — mutating an object no longer in the map cannot be observed through
the map). -/
def storeUpdate (store : SubscriptionStore) (key : String)
    (f : SubscriptionState → SubscriptionState) : SubscriptionStore :=
  store.map (fun p => if p.1 = key then (p.1, f p.2) else p)

/-- `Map.delete`. -/
def storeDelete (store : SubscriptionStore) (key : String) : SubscriptionStore :=
  store.filter (fun p => p.1 != key)

/-- `MAX_RECONNECT_ATTEMPTS` from `CollectionFactory`. -/
def MAX_RECONNECT_ATTEMPTS : Nat := 5

/-- `BASE_RECONNECT_DELAY` (milliseconds) from `CollectionFactory`. -/
def BASE_RECONNECT_DELAY : Nat := 1000

/-- Embeds the synchronous part of `subscribeToCollection`: compute the key
`recordId || '*'`; if an entry already exists return without doing anything
(the returned flag records whether a real-time channel open — a
`setupSubscription` call — was initiated); otherwise synchronously insert the
placeholder state and start the channel open. -/
def subscribeToCollectionSync (store : SubscriptionStore) (recordId : Option String) :
    SubscriptionStore × Bool :=
  let subscriptionKey := recordId.getD "*"
  if (storeLookup store subscriptionKey).isSome then (store, false)
  else
    (storeSet store subscriptionKey
      { unsubscribeId := 0, recordId := recordId, reconnectAttempts := 0,
        isReconnecting := false }, true)

/-- Embeds the `.then((unsubscribe) => ...)` continuation of
`subscribeToCollection`: if the state is still present, replace the
placeholder handle; otherwise do nothing. -/
def setupSubscriptionThen (store : SubscriptionStore) (key : String) (handle : Nat) :
    SubscriptionStore :=
  storeUpdate store key (fun st => { st with unsubscribeId := handle })

/-- Embeds the `while (state.reconnectAttempts < MAX_RECONNECT_ATTEMPTS)` loop
of `handleReconnection`.  `outcomes n` is the environment's result for the
resubscription attempted when the counter reads `n`: a fresh unsubscribe
handle on success, `none` on failure.  The fuel argument carries
`MAX_RECONNECT_ATTEMPTS - reconnectAttempts`, which is exactly the number of
remaining loop iterations since the counter increments once per failed
iteration.  Returns the store and the list of backoff delays awaited. -/
def reconnectLoop (outcomes : Nat → Option Nat) (key : String) :
    Nat → SubscriptionState → SubscriptionStore → SubscriptionStore × List Nat
  | 0, st, store =>
    -- loop condition false: give up, clear the flag and delete the entry
    let st := { st with isReconnecting := false }
    let store := storeUpdate store key (fun _ => st)
    (storeDelete store key, [])
  | fuel + 1, st, store =>
    let delay := BASE_RECONNECT_DELAY * 2 ^ st.reconnectAttempts
    match outcomes st.reconnectAttempts with
    | some handle =>
      -- resubscription succeeded: install the handle, reset, clear the flag
      let st := { st with unsubscribeId := handle }
      let st := { st with reconnectAttempts := 0 }
      let st := { st with isReconnecting := false }
      (storeUpdate store key (fun _ => st), [delay])
    | none =>
      -- resubscription failed: count the attempt and loop
      let st := { st with reconnectAttempts := st.reconnectAttempts + 1 }
      let result := reconnectLoop outcomes key fuel st (storeUpdate store key (fun _ => st))
      (result.1, delay :: result.2)

/-- Embeds `handleReconnection`: return immediately when no state is stored
for the key (this also covers a missing collection map) or when a retry loop
is already running; otherwise raise the `isReconnecting` flag and run the
backoff loop. -/
def handleReconnection (outcomes : Nat → Option Nat) (store : SubscriptionStore)
    (recordId : Option String) : SubscriptionStore × List Nat :=
  let subscriptionKey := recordId.getD "*"
  match storeLookup store subscriptionKey with
  | none => (store, [])
  | some state =>
    if state.isReconnecting then (store, [])
    else
      let state := { state with isReconnecting := true }
      reconnectLoop outcomes subscriptionKey
        (MAX_RECONNECT_ATTEMPTS - state.reconnectAttempts) state
        (storeUpdate store subscriptionKey (fun _ => state))

/-- Embeds the `.catch((error) => ...)` continuation of
`subscribeToCollection`: delete the placeholder, then invoke the reconnect
procedure. -/
def setupSubscriptionCatch (outcomes : Nat → Option Nat) (store : SubscriptionStore)
    (recordId : Option String) : SubscriptionStore × List Nat :=
  let subscriptionKey := recordId.getD "*"
  let store := storeDelete store subscriptionKey
  handleReconnection outcomes store recordId

/-- Embeds `unsubscribeFromCollection`: invoke the stored handle and delete
the entry when present (the channel-close side effect is outside the store
model). -/
def unsubscribeFromCollection (store : SubscriptionStore) (recordId : Option String) :
    SubscriptionStore :=
  let subscriptionKey := recordId.getD "*"
  match storeLookup store subscriptionKey with
  | none => store
  | some _ => storeDelete store subscriptionKey

/-- Embeds `unsubscribeAll` for one collection: every handle is invoked and
the whole sub-map is discarded. -/
def unsubscribeAllForCollection (_store : SubscriptionStore) : SubscriptionStore := []

/-- Embeds `isSubscribed`: a pure membership check on the store. -/
def isSubscribed (store : SubscriptionStore) (recordId : Option String) : Bool :=
  (storeLookup store (recordId.getD "*")).isSome

/-! ### Operator-support predicates

The where-expression IR produced by the TanStack DB query builder applies
comparison operator names to field/value leaves and combinator names to
expression lists.  `wellShaped` characterises that image inside the larger
`WhereExpr` type (a comparison name never labels a combinator node and vice
versa), and `containsUnsupportedOperator` detects a node whose operator name
lies outside the translator's supported set. -/

/-- The operator names with leaf handlers in `convertToPocketBaseFilter`. -/
def comparisonOperators : List String := ["eq", "gt", "gte", "lt", "lte", "in"]

/-- The operator names with combinator handlers. -/
def combinatorOperators : List String := ["and", "or"]

/-- The full supported set, as enumerated in the error message. -/
def supportedOperators : List String := ["eq", "gt", "gte", "lt", "lte", "in", "and", "or"]

mutual

def wellShaped : WhereExpr → Bool
  | .func name _ _ => !(decide (name ∈ combinatorOperators))
  | .logic name operands => !(decide (name ∈ comparisonOperators)) && wellShapedList operands

def wellShapedList : List WhereExpr → Bool
  | [] => true
  | e :: es => wellShaped e && wellShapedList es

end

mutual

def containsUnsupportedOperator : WhereExpr → Bool
  | .func name _ _ => !(decide (name ∈ supportedOperators))
  | .logic name operands =>
    !(decide (name ∈ supportedOperators)) || containsUnsupportedOperatorList operands

def containsUnsupportedOperatorList : List WhereExpr → Bool
  | [] => false
  | e :: es => containsUnsupportedOperator e || containsUnsupportedOperatorList es

end

/-! ### String infrastructure

`convertToPocketBaseFilter`'s `and`/`or` handlers filter conditions with
`c && c.trim() !== ''`.  To reason about that filter we characterise
`String.trim` at the character-list level, mirroring the style of the
position-validity lemmas that ship with the standard library, and derive the
two facts we need: a string containing a non-whitespace character has a
nonempty trim, and conversely a string with a nonempty trim contains a
non-whitespace character. -/
theorem takeRightWhileAux_of_valid (p : Char → Bool) :
    ∀ (m : List Char) (l r : List Char),
      Substring.takeRightWhileAux ⟨l ++ m ++ r⟩ ⟨String.utf8Len l⟩ p
          ⟨String.utf8Len l + String.utf8Len m⟩ =
        ⟨String.utf8Len l + String.utf8Len (m.reverse.dropWhile p).reverse⟩ := by
  intro m
  induction m using List.reverseRecOn with
  | nil =>
    intro l r
    unfold Substring.takeRightWhileAux
    simp
  | append_singleton m' c ih =>
    intro l r
    unfold Substring.takeRightWhileAux
    rw [dif_pos (by
      simp only [Pos.mk_lt_mk, utf8Len_append, utf8Len_cons, utf8Len_nil]
      have := Char.utf8Size_pos c
      omega)]
    have hstr : l ++ (m' ++ [c]) ++ r = l ++ m' ++ c :: r := by simp
    have hpos : String.utf8Len l + String.utf8Len (m' ++ [c]) =
        String.utf8Len (l ++ m') + c.utf8Size := by simp; omega
    rw [hstr]
    simp only [hpos]
    rw [prev_of_valid (l ++ m') c r, get_of_valid (l ++ m') (c :: r)]
    simp only [List.headD_cons]
    obtain hpc | hpc := Bool.eq_false_or_eq_true (p c)
    · simp only [hpc, Bool.not_true, Bool.false_eq_true, if_false]
      have hih := ih l (c :: r)
      rw [show (⟨String.utf8Len (l ++ m')⟩ : Pos) = ⟨String.utf8Len l + String.utf8Len m'⟩ by
        simp]
      rw [hih]
      simp [List.dropWhile_cons, hpc]
    · simp only [hpc, Bool.not_false, if_true]
      simp only [Pos.ext_iff, List.reverse_append, List.reverse_cons, List.reverse_nil,
        List.nil_append, List.singleton_append, List.dropWhile_cons, hpc, Bool.false_eq_true,
        if_false, List.reverse_cons, utf8Len_append, utf8Len_cons, utf8Len_nil,
        List.reverse_reverse]
      omega

theorem trim_data (s : String) :
    s.trim =
      ⟨((s.data.dropWhile Char.isWhitespace).reverse.dropWhile Char.isWhitespace).reverse⟩ := by
  obtain ⟨d⟩ := s
  set ws := Char.isWhitespace with hws
  set w1 := d.takeWhile ws with hw1
  set rest := d.dropWhile ws with hrest
  set rtrim := (rest.reverse.dropWhile ws).reverse with hrtrim
  set trail := (rest.reverse.takeWhile ws).reverse with htrail
  have hd : d = w1 ++ rest := by
    rw [hw1, hrest, List.takeWhile_append_dropWhile]
  have hsplit : rest = rtrim ++ trail := by
    rw [hrtrim, htrail, ← List.reverse_append, List.takeWhile_append_dropWhile,
      List.reverse_reverse]
  have hb : Substring.takeWhileAux ⟨d⟩ ⟨String.utf8Len d⟩ ws ⟨0⟩ = ⟨String.utf8Len w1⟩ := by
    have h := takeWhileAux_of_valid ws [] d []
    simpa using h
  have he : Substring.takeRightWhileAux ⟨d⟩ ⟨String.utf8Len w1⟩ ws ⟨String.utf8Len d⟩ =
      ⟨String.utf8Len w1 + String.utf8Len rtrim⟩ := by
    have h := takeRightWhileAux_of_valid ws rest w1 []
    rw [List.append_nil, ← hd] at h
    rw [show (⟨String.utf8Len d⟩ : Pos) = ⟨String.utf8Len w1 + String.utf8Len rest⟩ by
      rw [hd]; simp]
    exact h
  show String.extract ⟨d⟩ (Substring.takeWhileAux ⟨d⟩ ⟨String.utf8Len d⟩ ws ⟨0⟩)
      (Substring.takeRightWhileAux ⟨d⟩
        (Substring.takeWhileAux ⟨d⟩ ⟨String.utf8Len d⟩ ws ⟨0⟩) ws ⟨String.utf8Len d⟩) = ⟨rtrim⟩
  rw [hb, he]
  rw [show (⟨d⟩ : String) = ⟨w1 ++ rtrim ++ trail⟩ by rw [hd, hsplit]; simp]
  exact extract_of_valid w1 rtrim trail

theorem trim_ne_empty_of_mem {s : String} {c : Char} (hmem : c ∈ s.data)
    (hc : c.isWhitespace = false) : s.trim ≠ "" := by
  rw [trim_data]
  intro hcontra
  have hnil : ((s.data.dropWhile Char.isWhitespace).reverse.dropWhile
      Char.isWhitespace).reverse = [] := congrArg String.data hcontra
  rw [List.reverse_eq_nil_iff, List.dropWhile_eq_nil_iff] at hnil
  rw [show s.data = s.data.takeWhile Char.isWhitespace ++ s.data.dropWhile Char.isWhitespace by
    rw [List.takeWhile_append_dropWhile]] at hmem
  rcases List.mem_append.mp hmem with hin | hin
  · have := List.mem_takeWhile_imp hin
    rw [hc] at this
    exact Bool.false_ne_true this
  · have := hnil c (List.mem_reverse.mpr hin)
    rw [hc] at this
    exact Bool.false_ne_true this

theorem mem_non_whitespace_of_trim_ne {s : String} (h : s.trim ≠ "") :
    ∃ c ∈ s.data, c.isWhitespace = false := by
  rw [trim_data] at h
  have hne : (s.data.dropWhile Char.isWhitespace).reverse.dropWhile Char.isWhitespace ≠ [] := by
    intro hcontra
    exact h (by rw [hcontra]; rfl)
  have hex : ∃ c ∈ (s.data.dropWhile Char.isWhitespace).reverse, c.isWhitespace = false := by
    by_contra hall
    push_neg at hall
    refine hne (List.dropWhile_eq_nil_iff.mpr ?_)
    intro x hx
    have := hall x hx
    revert this
    cases x.isWhitespace <;> simp
  obtain ⟨c, hcmem, hcw⟩ := hex
  refine ⟨c, ?_, hcw⟩
  exact (List.dropWhile_sublist Char.isWhitespace).mem (List.mem_reverse.mp hcmem)

theorem intercalate_go_eq (sep : String) :
    ∀ (as : List String) (acc : String),
      String.intercalate.go acc sep as = acc ++ joinParts sep as := by
  intro as
  induction as with
  | nil =>
    intro acc
    apply String.ext
    simp [String.intercalate.go, joinParts]
  | cons a as ih =>
    intro acc
    rw [show String.intercalate.go acc sep (a :: as) =
      String.intercalate.go (acc ++ sep ++ a) sep as from rfl, ih]
    apply String.ext
    simp [joinParts]

theorem intercalate_cons (sep a : String) (as : List String) :
    String.intercalate sep (a :: as) = a ++ joinParts sep as := by
  rw [show String.intercalate sep (a :: as) = String.intercalate.go a sep as from rfl,
    intercalate_go_eq]

theorem joinParts_append (sep : String) (xs ys : List String) :
    joinParts sep (xs ++ ys) = joinParts sep xs ++ joinParts sep ys := by
  induction xs with
  | nil =>
    apply String.ext
    simp [joinParts]
  | cons a as ih =>
    apply String.ext
    simp [joinParts, ih]

theorem intercalate_append_of_ne_nil (sep : String) (l1 l2 : List String)
    (h1 : l1 ≠ []) (h2 : l2 ≠ []) :
    String.intercalate sep (l1 ++ l2) =
      String.intercalate sep l1 ++ sep ++ String.intercalate sep l2 := by
  obtain ⟨a, t, rfl⟩ : ∃ a t, l1 = a :: t := by
    cases l1 with
    | nil => exact absurd rfl h1
    | cons a t => exact ⟨a, t, rfl⟩
  obtain ⟨b, u, rfl⟩ : ∃ b u, l2 = b :: u := by
    cases l2 with
    | nil => exact absurd rfl h2
    | cons b u => exact ⟨b, u, rfl⟩
  rw [List.cons_append, intercalate_cons, intercalate_cons, intercalate_cons]
  rw [show t ++ b :: u = t ++ [b] ++ u by simp, joinParts_append, joinParts_append]
  apply String.ext
  simp [joinParts]

theorem jsTrim_eq_trim (s : String) : jsTrim s = s.trim := (trim_data s).symm

mutual

theorem convert_ok_of_no_unsupported :
    ∀ e : WhereExpr, wellShaped e = true → containsUnsupportedOperator e = false →
      ∃ r, convertWhereExpr e = .ok r
  | .func name field value, hw, hu => by
    have hu' : name ∈ supportedOperators := by
      simpa [containsUnsupportedOperator] using hu
    have hw' : name ∉ combinatorOperators := by
      simpa [wellShaped] using hw
    simp only [supportedOperators, List.mem_cons, List.not_mem_nil, or_false] at hu'
    rcases hu' with h | h | h | h | h | h | h | h <;> subst h
    · exact ⟨_, rfl⟩
    · exact ⟨_, rfl⟩
    · exact ⟨_, rfl⟩
    · exact ⟨_, rfl⟩
    · exact ⟨_, rfl⟩
    · exact ⟨_, rfl⟩
    · exact absurd (by simp [combinatorOperators]) hw'
    · exact absurd (by simp [combinatorOperators]) hw'
  | .logic name operands, hw, hu => by
    simp only [wellShaped, Bool.and_eq_true, Bool.not_eq_true', decide_eq_false_iff_not] at hw
    obtain ⟨hwname, hwlist⟩ := hw
    simp only [containsUnsupportedOperator, Bool.or_eq_false_iff, Bool.not_eq_false',
      decide_eq_true_eq] at hu
    obtain ⟨huname, hulist⟩ := hu
    obtain ⟨rs, hrs⟩ := convertList_ok_of_no_unsupported operands hwlist hulist
    have hcomb : name = "and" ∨ name = "or" := by
      simp only [supportedOperators, List.mem_cons, List.not_mem_nil, or_false] at huname
      simp only [comparisonOperators, List.mem_cons, List.not_mem_nil, or_false] at hwname
      tauto
    rcases hcomb with h | h <;> subst h
    · refine ⟨combineConditions " && " rs, ?_⟩
      rw [show convertWhereExpr (.logic "and" operands) = (do
          let conditions ← convertWhereList operands
          pure (combineConditions " && " conditions)) from rfl, hrs]
      rfl
    · refine ⟨combineConditions " || " rs, ?_⟩
      rw [show convertWhereExpr (.logic "or" operands) = (do
          let conditions ← convertWhereList operands
          pure (combineConditions " || " conditions)) from rfl, hrs]
      rfl

theorem convertList_ok_of_no_unsupported :
    ∀ es : List WhereExpr, wellShapedList es = true →
      containsUnsupportedOperatorList es = false → ∃ rs, convertWhereList es = .ok rs
  | [], _, _ => ⟨[], rfl⟩
  | e :: es, hw, hu => by
    simp only [wellShapedList, Bool.and_eq_true] at hw
    simp only [containsUnsupportedOperatorList, Bool.or_eq_false_iff] at hu
    obtain ⟨r, hr⟩ := convert_ok_of_no_unsupported e hw.1 hu.1
    obtain ⟨rs, hrs⟩ := convertList_ok_of_no_unsupported es hw.2 hu.2
    refine ⟨r :: rs, ?_⟩
    rw [show convertWhereList (e :: es) = (do
        let c ← convertWhereExpr e
        let cs ← convertWhereList es
        pure (c :: cs)) from rfl, hr, hrs]
    rfl

end

mutual

theorem convert_error_of_unsupported :
    ∀ e : WhereExpr, wellShaped e = true → containsUnsupportedOperator e = true →
      ∃ op, op ∉ supportedOperators ∧
        convertWhereExpr e = .error (unsupportedOperatorMessage op)
  | .func name field value, hw, hu => by
    have hu' : name ∉ supportedOperators := by
      simpa [containsUnsupportedOperator] using hu
    have h1 : name ≠ "eq" := fun h => hu' (by simp [supportedOperators, h])
    have h2 : name ≠ "gt" := fun h => hu' (by simp [supportedOperators, h])
    have h3 : name ≠ "gte" := fun h => hu' (by simp [supportedOperators, h])
    have h4 : name ≠ "lt" := fun h => hu' (by simp [supportedOperators, h])
    have h5 : name ≠ "lte" := fun h => hu' (by simp [supportedOperators, h])
    have h6 : name ≠ "in" := fun h => hu' (by simp [supportedOperators, h])
    refine ⟨name, hu', ?_⟩
    simp [convertWhereExpr, h1, h2, h3, h4, h5, h6]
  | .logic name operands, hw, hu => by
    simp only [wellShaped, Bool.and_eq_true, Bool.not_eq_true', decide_eq_false_iff_not] at hw
    obtain ⟨hwname, hwlist⟩ := hw
    simp only [containsUnsupportedOperator, Bool.or_eq_true, Bool.not_eq_true',
      decide_eq_false_iff_not] at hu
    by_cases hand : name = "and"
    · subst hand
      have hulist : containsUnsupportedOperatorList operands = true := by
        rcases hu with h | h
        · exact absurd (by simp [supportedOperators]) h
        · exact h
      obtain ⟨op, hop, herr⟩ :=
        convertList_error_of_unsupported operands hwlist hulist
      refine ⟨op, hop, ?_⟩
      rw [show convertWhereExpr (.logic "and" operands) = (do
          let conditions ← convertWhereList operands
          pure (combineConditions " && " conditions)) from rfl, herr]
      rfl
    · by_cases hor : name = "or"
      · subst hor
        have hulist : containsUnsupportedOperatorList operands = true := by
          rcases hu with h | h
          · exact absurd (by simp [supportedOperators]) h
          · exact h
        obtain ⟨op, hop, herr⟩ :=
          convertList_error_of_unsupported operands hwlist hulist
        refine ⟨op, hop, ?_⟩
        rw [show convertWhereExpr (.logic "or" operands) = (do
            let conditions ← convertWhereList operands
            pure (combineConditions " || " conditions)) from rfl, herr]
        rfl
      · refine ⟨name, ?_, ?_⟩
        · intro hmem
          simp only [supportedOperators, List.mem_cons, List.not_mem_nil, or_false] at hmem
          simp only [comparisonOperators, List.mem_cons, List.not_mem_nil, or_false] at hwname
          tauto
        · simp [convertWhereExpr, hand, hor]

theorem convertList_error_of_unsupported :
    ∀ es : List WhereExpr, wellShapedList es = true →
      containsUnsupportedOperatorList es = true →
      ∃ op, op ∉ supportedOperators ∧
        convertWhereList es = .error (unsupportedOperatorMessage op)
  | e :: es, hw, hu => by
    simp only [wellShapedList, Bool.and_eq_true] at hw
    simp only [containsUnsupportedOperatorList, Bool.or_eq_true] at hu
    by_cases hue : containsUnsupportedOperator e = true
    · obtain ⟨op, hop, herr⟩ := convert_error_of_unsupported e hw.1 hue
      refine ⟨op, hop, ?_⟩
      rw [show convertWhereList (e :: es) = (do
          let c ← convertWhereExpr e
          let cs ← convertWhereList es
          pure (c :: cs)) from rfl, herr]
      rfl
    · have hue' : containsUnsupportedOperator e = false := by
        revert hue
        cases containsUnsupportedOperator e <;> simp
      have hutail : containsUnsupportedOperatorList es = true := by
        rcases hu with h | h
        · exact absurd h hue
        · exact h
      obtain ⟨r, hr⟩ := convert_ok_of_no_unsupported e hw.1 hue'
      obtain ⟨op, hop, herr⟩ := convertList_error_of_unsupported es hw.2 hutail
      refine ⟨op, hop, ?_⟩
      rw [show convertWhereList (e :: es) = (do
          let c ← convertWhereExpr e
          let cs ← convertWhereList es
          pure (c :: cs)) from rfl, hr, herr]
      rfl

end

/-! ### Translated conditions are empty or visibly non-blank

The `and`/`or` filter drops a condition when it is empty **or** consists only
of whitespace.  No translator output can be a nonempty all-whitespace string —
every nonempty output contains an operator symbol or a parenthesis — so on
translator outputs the filter coincides with dropping exactly the empty
strings. -/
theorem combineConditions_empty_or_nonws (sep : String) (cs : List String) :
    combineConditions sep cs = "" ∨
      ∃ c ∈ (combineConditions sep cs).data, c.isWhitespace = false := by
  unfold combineConditions
  cases hne : nonEmptyConditions cs with
  | nil => exact Or.inl rfl
  | cons c rest =>
    cases rest with
    | nil =>
      refine Or.inr ?_
      have hmem : c ∈ nonEmptyConditions cs := by rw [hne]; exact List.mem_singleton.mpr rfl
      have hcond := (List.mem_filter.mp hmem).2
      simp only [Bool.and_eq_true, bne_iff_ne, ne_eq] at hcond
      have htrim : c.trim ≠ "" := by
        rw [← jsTrim_eq_trim]
        exact hcond.2
      exact mem_non_whitespace_of_trim_ne htrim
    | cons c2 rest2 =>
      refine Or.inr ⟨'(', ?_, by decide⟩
      simp only [String.data_append, List.mem_append]
      left; left; decide

theorem convert_ok_empty_or_nonws :
    ∀ (e : WhereExpr) (r : String), convertWhereExpr e = .ok r →
      r = "" ∨ ∃ c ∈ r.data, c.isWhitespace = false := by
  intro e r hok
  cases e with
  | func name field value =>
    by_cases h1 : name = "eq"
    · subst h1
      rw [show convertWhereExpr (.func "eq" field value) =
          .ok (String.intercalate "." field ++ " = " ++ formatLeafValue value) from rfl] at hok
      rw [← Except.ok.inj hok]
      refine Or.inr ⟨'=', ?_, by decide⟩
      simp only [String.data_append, List.mem_append]
      left; right; decide
    · by_cases h2 : name = "gt"
      · subst h2
        rw [show convertWhereExpr (.func "gt" field value) =
            .ok (String.intercalate "." field ++ " > " ++ formatLeafValue value) from rfl] at hok
        rw [← Except.ok.inj hok]
        refine Or.inr ⟨'>', ?_, by decide⟩
        simp only [String.data_append, List.mem_append]
        left; right; decide
      · by_cases h3 : name = "gte"
        · subst h3
          rw [show convertWhereExpr (.func "gte" field value) =
              .ok (String.intercalate "." field ++ " >= " ++ formatLeafValue value)
              from rfl] at hok
          rw [← Except.ok.inj hok]
          refine Or.inr ⟨'>', ?_, by decide⟩
          simp only [String.data_append, List.mem_append]
          left; right; decide
        · by_cases h4 : name = "lt"
          · subst h4
            rw [show convertWhereExpr (.func "lt" field value) =
                .ok (String.intercalate "." field ++ " < " ++ formatLeafValue value)
                from rfl] at hok
            rw [← Except.ok.inj hok]
            refine Or.inr ⟨'<', ?_, by decide⟩
            simp only [String.data_append, List.mem_append]
            left; right; decide
          · by_cases h5 : name = "lte"
            · subst h5
              rw [show convertWhereExpr (.func "lte" field value) =
                  .ok (String.intercalate "." field ++ " <= " ++ formatLeafValue value)
                  from rfl] at hok
              rw [← Except.ok.inj hok]
              refine Or.inr ⟨'<', ?_, by decide⟩
              simp only [String.data_append, List.mem_append]
              left; right; decide
            · by_cases h6 : name = "in"
              · subst h6
                rw [show convertWhereExpr (.func "in" field value) =
                    .ok (inHandler (String.intercalate "." field) value) from rfl] at hok
                rw [← Except.ok.inj hok]
                cases value with
                | scalar v =>
                  refine Or.inr ⟨'=', ?_, by decide⟩
                  simp only [inHandler, String.data_append, List.mem_append]
                  left; right; decide
                | array vs =>
                  match vs with
                  | [] =>
                    rw [show inHandler (String.intercalate "." field)
                      (LeafValue.array []) = "id = \"\"" from rfl]
                    exact Or.inr (by decide)
                  | [v] =>
                    refine Or.inr ⟨'=', ?_, by decide⟩
                    simp only [inHandler, String.data_append, List.mem_append]
                    left; right; decide
                  | v1 :: v2 :: rest =>
                    refine Or.inr ⟨'(', ?_, by decide⟩
                    simp only [inHandler, String.data_append, List.mem_append]
                    left; left; decide
              · rw [show convertWhereExpr (.func name field value) =
                    (if name = "eq" then
                      .ok (String.intercalate "." field ++ " = " ++ formatLeafValue value)
                    else if name = "gt" then
                      .ok (String.intercalate "." field ++ " > " ++ formatLeafValue value)
                    else if name = "gte" then
                      .ok (String.intercalate "." field ++ " >= " ++ formatLeafValue value)
                    else if name = "lt" then
                      .ok (String.intercalate "." field ++ " < " ++ formatLeafValue value)
                    else if name = "lte" then
                      .ok (String.intercalate "." field ++ " <= " ++ formatLeafValue value)
                    else if name = "in" then
                      .ok (inHandler (String.intercalate "." field) value)
                    else .error (unsupportedOperatorMessage name)) from rfl] at hok
                rw [if_neg h1, if_neg h2, if_neg h3, if_neg h4, if_neg h5, if_neg h6] at hok
                exact absurd hok (by simp)
  | logic name operands =>
    by_cases hand : name = "and"
    · subst hand
      rw [show convertWhereExpr (.logic "and" operands) = (do
          let conditions ← convertWhereList operands
          pure (combineConditions " && " conditions)) from rfl] at hok
      cases hlist : convertWhereList operands with
      | error m => rw [hlist] at hok; exact absurd hok (by simp)
      | ok conditions =>
        rw [hlist] at hok
        rw [← Except.ok.inj hok]
        exact combineConditions_empty_or_nonws " && " conditions
    · by_cases hor : name = "or"
      · subst hor
        rw [show convertWhereExpr (.logic "or" operands) = (do
            let conditions ← convertWhereList operands
            pure (combineConditions " || " conditions)) from rfl] at hok
        cases hlist : convertWhereList operands with
        | error m => rw [hlist] at hok; exact absurd hok (by simp)
        | ok conditions =>
          rw [hlist] at hok
          rw [← Except.ok.inj hok]
          exact combineConditions_empty_or_nonws " || " conditions
      · rw [show convertWhereExpr (.logic name operands) =
            (if name = "and" then (do
              let conditions ← convertWhereList operands
              pure (combineConditions " && " conditions))
            else if name = "or" then (do
              let conditions ← convertWhereList operands
              pure (combineConditions " || " conditions))
            else .error (unsupportedOperatorMessage name)) from rfl] at hok
        rw [if_neg hand, if_neg hor] at hok
        exact absurd hok (by simp)

theorem convertList_ok_empty_or_nonws :
    ∀ (es : List WhereExpr) (rs : List String), convertWhereList es = .ok rs →
      ∀ r ∈ rs, r = "" ∨ ∃ c ∈ r.data, c.isWhitespace = false := by
  intro es
  induction es with
  | nil =>
    intro rs hok r hr
    rw [show convertWhereList [] = .ok [] from rfl] at hok
    rw [← Except.ok.inj hok] at hr
    exact absurd hr (List.not_mem_nil r)
  | cons e es ih =>
    intro rs hok r hr
    rw [show convertWhereList (e :: es) = (do
        let c ← convertWhereExpr e
        let cs ← convertWhereList es
        pure (c :: cs)) from rfl] at hok
    cases hc : convertWhereExpr e with
    | error m => rw [hc] at hok; exact Except.noConfusion hok
    | ok c =>
      rw [hc] at hok
      cases hcs : convertWhereList es with
      | error m => rw [hcs] at hok; exact Except.noConfusion hok
      | ok cs =>
        rw [hcs] at hok
        rw [← Except.ok.inj hok] at hr
        rcases List.mem_cons.mp hr with rfl | hmem
        · exact convert_ok_empty_or_nonws e r hc
        · exact ih cs hcs r hmem

theorem keep_eq_ne_empty (r : String)
    (h : r = "" ∨ ∃ c ∈ r.data, c.isWhitespace = false) :
    (r != "" && jsTrim r != "") = !(r == "") := by
  rcases h with rfl | ⟨c, hc, hw⟩
  · decide
  · have hne : r ≠ "" := by
      intro h0
      subst h0
      rw [show ("" : String).data = [] from rfl] at hc
      exact absurd hc (List.not_mem_nil c)
    have hjs : jsTrim r ≠ "" := by
      rw [jsTrim_eq_trim]
      exact trim_ne_empty_of_mem hc hw
    have h1 : (r == "") = false := beq_eq_false_iff_ne.mpr hne
    have h2 : (jsTrim r == "") = false := beq_eq_false_iff_ne.mpr hjs
    rw [show (r != "") = !(r == "") from rfl, show (jsTrim r != "") = !(jsTrim r == "") from rfl,
      h1, h2]
    rfl

theorem nonEmptyConditions_eq_filter_ne_empty (conditions : List String)
    (h : ∀ r ∈ conditions, r = "" ∨ ∃ c ∈ r.data, c.isWhitespace = false) :
    nonEmptyConditions conditions = conditions.filter (fun c => !(c == "")) := by
  unfold nonEmptyConditions
  exact List.filter_congr (fun r hr => keep_eq_ne_empty r (h r hr))

/-! ### Store lemmas -/
theorem storeLookup_set_self (store : SubscriptionStore) (key : String)
    (st : SubscriptionState) : storeLookup (storeSet store key st) key = some st := by
  induction store with
  | nil => simp [storeSet, storeLookup]
  | cons p rest ih =>
    by_cases h : p.1 = key
    · simp [storeSet, storeLookup, h]
    · simp only [storeSet, h, if_false]
      simp only [storeLookup, h, if_false]
      exact ih

theorem storeLookup_update_none {store : SubscriptionStore} {k key : String}
    {f : SubscriptionState → SubscriptionState} (h : storeLookup store key = none) :
    storeLookup (storeUpdate store k f) key = none := by
  induction store with
  | nil => rfl
  | cons p rest ih =>
    simp only [storeLookup] at h
    by_cases hp : p.1 = key
    · rw [if_pos hp] at h
      exact absurd h (by simp)
    · rw [if_neg hp] at h
      by_cases hk : p.1 = k
      · simp only [storeUpdate, List.map_cons, hk, if_pos rfl]
        simp only [storeLookup]
        rw [if_neg (by rw [hk] at hp; exact hp)]
        simpa [storeUpdate] using ih h
      · simp only [storeUpdate, List.map_cons, hk, if_false]
        simp only [storeLookup, hp, if_false]
        simpa [storeUpdate] using ih h

theorem storeLookup_delete_self (store : SubscriptionStore) (key : String) :
    storeLookup (storeDelete store key) key = none := by
  induction store with
  | nil => rfl
  | cons p rest ih =>
    by_cases h : p.1 = key
    · simpa [storeDelete, h] using ih
    · have hb : (p.1 != key) = true := by
        simp [bne_iff_ne, h]
      simp only [storeDelete, List.filter_cons, hb, if_true]
      simp only [storeLookup, h, if_false]
      simpa [storeDelete] using ih

theorem reconnectLoop_preserves_absent (outcomes : Nat → Option Nat) (key : String) :
    ∀ (fuel : Nat) (st : SubscriptionState) (store : SubscriptionStore),
      storeLookup store key = none →
      storeLookup (reconnectLoop outcomes key fuel st store).1 key = none := by
  intro fuel
  induction fuel with
  | zero =>
    intro st store _
    exact storeLookup_delete_self _ key
  | succ fuel ih =>
    intro st store h
    cases houtcome : outcomes st.reconnectAttempts with
    | some handle =>
      simp only [reconnectLoop, houtcome]
      exact storeLookup_update_none h
    | none =>
      simp only [reconnectLoop, houtcome]
      exact ih _ _ (storeLookup_update_none h)

theorem handleReconnection_preserves_absent (outcomes : Nat → Option Nat)
    (store : SubscriptionStore) (recordId : Option String)
    (h : storeLookup store (recordId.getD "*") = none) :
    storeLookup (handleReconnection outcomes store recordId).1 (recordId.getD "*") = none := by
  simp only [handleReconnection, h]

/-! ### Helper lemmas for the value-formatter claim -/
theorem escapeQuotesAux_eq_flatMap :
    ∀ cs : List Char,
      escapeQuotesAux cs = cs.flatMap (fun c => if c = '"' then ['\\', '"'] else [c]) := by
  intro cs
  induction cs with
  | nil => rfl
  | cons c rest ih =>
    by_cases h : c = '"'
    · simp [escapeQuotesAux, h, ih]
    · simp [escapeQuotesAux, h, ih]

theorem escapeQuotesAux_of_no_quote :
    ∀ cs : List Char, (∀ c ∈ cs, c ≠ '"') → escapeQuotesAux cs = cs := by
  intro cs
  induction cs with
  | nil => exact fun _ => rfl
  | cons c rest ih =>
    intro h
    have hc : c ≠ '"' := h c (List.mem_cons_self c rest)
    simp only [escapeQuotesAux, hc, if_false]
    rw [ih (fun x hx => h x (List.mem_cons_of_mem c hx))]

/-! ### Claim theorems -/

/-- C1: the claim (and the repository's own test `should deduplicate query
values`) states that an `in` value list is deduplicated, `["x","x","x"]`
collapsing to the single equality `id = "x0xz23mbkpouksb"`.  Evaluating the
embedded handler at that exact input shows the code instead emits an OR-chain
of three identical `?=` clauses, and that even a genuine singleton list is
rendered with `?=`, not plain equality. -/
theorem in_handler_keeps_duplicate_values :
    convertToPocketBaseFilter (some (.func "in" ["id"]
        (.array [.str "x0xz23mbkpouksb", .str "x0xz23mbkpouksb", .str "x0xz23mbkpouksb"]))) =
      .ok ("(id ?= \"x0xz23mbkpouksb\" || id ?= \"x0xz23mbkpouksb\" || " ++
        "id ?= \"x0xz23mbkpouksb\")") ∧
    convertToPocketBaseFilter (some (.func "in" ["id"]
        (.array [.str "x0xz23mbkpouksb", .str "x0xz23mbkpouksb", .str "x0xz23mbkpouksb"]))) ≠
      .ok "id = \"x0xz23mbkpouksb\"" ∧
    convertToPocketBaseFilter (some (.func "in" ["id"] (.array [.str "x"]))) =
      .ok "id ?= \"x\"" := by
  refine ⟨rfl, ?_, rfl⟩
  intro h
  exact absurd (Except.ok.inj h) (by decide)

/-- C2 (evaluation at the failing input): the claim says a channel-open
failure during subscribe triggers backoff retries.  In the code the catch
handler deletes the subscription record *before* invoking
`handleReconnection`, whose `!state` guard then returns at once: for every
possible environment the retry loop awaits no delay, makes no attempt, and
the record stays deleted. -/
theorem subscribe_open_failure_never_retries :
    ∀ outcomes : Nat → Option Nat,
      (subscribeToCollectionSync [] none).2 = true ∧
      (setupSubscriptionCatch outcomes (subscribeToCollectionSync [] none).1 none).2 = [] ∧
      storeLookup (setupSubscriptionCatch outcomes (subscribeToCollectionSync [] none).1 none).1
        "*" = none :=
  fun _ => ⟨rfl, rfl, rfl⟩

/-- C3: for any store with no record at the key, the first subscribe call
initiates exactly one channel open and installs the placeholder record
synchronously (so `isSubscribed` is already true), and a second subscribe call
for the same key initiates no further channel open and leaves the store
untouched. -/
theorem subscribe_twice_opens_single_channel (store : SubscriptionStore)
    (recordId : Option String) (h : storeLookup store (recordId.getD "*") = none) :
    (subscribeToCollectionSync store recordId).2 = true ∧
    isSubscribed (subscribeToCollectionSync store recordId).1 recordId = true ∧
    (subscribeToCollectionSync (subscribeToCollectionSync store recordId).1 recordId).2 = false ∧
    (subscribeToCollectionSync (subscribeToCollectionSync store recordId).1 recordId).1 =
      (subscribeToCollectionSync store recordId).1 := by
  have h1 : subscribeToCollectionSync store recordId =
      (storeSet store (recordId.getD "*") ⟨0, recordId, 0, false⟩, true) := by
    unfold subscribeToCollectionSync
    simp [h]
  have h2 : storeLookup (storeSet store (recordId.getD "*") ⟨0, recordId, 0, false⟩)
      (recordId.getD "*") = some ⟨0, recordId, 0, false⟩ :=
    storeLookup_set_self store (recordId.getD "*") ⟨0, recordId, 0, false⟩
  refine ⟨by rw [h1], ?_, ?_, ?_⟩
  · rw [h1]
    simp [isSubscribed, h2]
  · rw [h1]
    unfold subscribeToCollectionSync
    simp [h2]
  · rw [h1]
    unfold subscribeToCollectionSync
    simp [h2]

/-- Witness for C3 at the empty store and the collection-wide key. -/
theorem subscribe_twice_opens_single_channel_witness :
    storeLookup ([] : SubscriptionStore) "*" = none ∧
    ((subscribeToCollectionSync [] none).2 = true ∧
      isSubscribed (subscribeToCollectionSync [] none).1 none = true ∧
      (subscribeToCollectionSync (subscribeToCollectionSync [] none).1 none).2 = false ∧
      (subscribeToCollectionSync (subscribeToCollectionSync [] none).1 none).1 =
        (subscribeToCollectionSync [] none).1) :=
  ⟨rfl, subscribe_twice_opens_single_channel [] none rfl⟩

/-- C4: a where-expression (in the image of the query builder, `wellShaped`)
containing any operator name outside the supported eight makes the translation
fail synchronously with the error that names an offending operator and lists
the supported set; the `Except` error value propagates unrecovered to the
caller of `convertToPocketBaseFilter`. -/
theorem unsupported_operator_raises (e : WhereExpr)
    (hshape : wellShaped e = true)
    (hbad : containsUnsupportedOperator e = true) :
    ∃ op, op ∉ supportedOperators ∧
      convertToPocketBaseFilter (some e) = .error (unsupportedOperatorMessage op) := by
  obtain ⟨op, hop, herr⟩ := convert_error_of_unsupported e hshape hbad
  exact ⟨op, hop, herr⟩

/-- Witness for C4 at a `like` leaf nested under a supported combinator. -/
theorem unsupported_operator_raises_witness :
    wellShaped (.logic "and" [.func "like" ["name"] (.scalar (.str "x"))]) = true ∧
    containsUnsupportedOperator
      (.logic "and" [.func "like" ["name"] (.scalar (.str "x"))]) = true ∧
    ∃ op, op ∉ supportedOperators ∧
      convertToPocketBaseFilter
          (some (.logic "and" [.func "like" ["name"] (.scalar (.str "x"))])) =
        .error (unsupportedOperatorMessage op) :=
  ⟨rfl, rfl, unsupported_operator_raises _ rfl rfl⟩

/-- C5: an `and`/`or` combinator translates its operands, drops exactly the
operands that translated to the empty string (the source's trim-based filter
coincides with that on translator outputs, which are never nonempty
whitespace), and then returns the empty string for zero survivors, the sole
survivor unwrapped, or the survivors joined with the separator inside one pair
of parentheses. -/
theorem and_or_drop_empty_operands (name sep : String) (operands : List WhereExpr)
    (conditions : List String)
    (hname : (name = "and" ∧ sep = " && ") ∨ (name = "or" ∧ sep = " || "))
    (hconv : convertWhereList operands = .ok conditions) :
    nonEmptyConditions conditions = conditions.filter (fun c => !(c == "")) ∧
    convertWhereExpr (.logic name operands) = .ok
      (match conditions.filter (fun c => !(c == "")) with
        | [] => ""
        | [c] => c
        | cs => "(" ++ String.intercalate sep cs ++ ")") := by
  have hfilter := nonEmptyConditions_eq_filter_ne_empty conditions
    (convertList_ok_empty_or_nonws operands conditions hconv)
  refine ⟨hfilter, ?_⟩
  rcases hname with ⟨hn, hs⟩ | ⟨hn, hs⟩ <;> subst hn <;> subst hs
  · rw [show convertWhereExpr (.logic "and" operands) = (do
        let cs ← convertWhereList operands
        pure (combineConditions " && " cs)) from rfl, hconv]
    show Except.ok (combineConditions " && " conditions) = _
    rw [show combineConditions " && " conditions =
      (match nonEmptyConditions conditions with
        | [] => ""
        | [c] => c
        | cs => "(" ++ String.intercalate " && " cs ++ ")") from rfl, hfilter]
  · rw [show convertWhereExpr (.logic "or" operands) = (do
        let cs ← convertWhereList operands
        pure (combineConditions " || " cs)) from rfl, hconv]
    show Except.ok (combineConditions " || " conditions) = _
    rw [show combineConditions " || " conditions =
      (match nonEmptyConditions conditions with
        | [] => ""
        | [c] => c
        | cs => "(" ++ String.intercalate " || " cs ++ ")") from rfl, hfilter]

/-- Witness for C5 at the spec's two-operand example. -/
theorem and_or_drop_empty_operands_witness :
    convertWhereList [WhereExpr.func "eq" ["genre"] (.scalar (.str "Fantasy")),
        WhereExpr.func "gt" ["page_count"] (.scalar (.num 100))] =
      .ok ["genre = \"Fantasy\"", "page_count > 100"] ∧
    convertWhereExpr (.logic "and" [WhereExpr.func "eq" ["genre"] (.scalar (.str "Fantasy")),
        WhereExpr.func "gt" ["page_count"] (.scalar (.num 100))]) = .ok
      (match (["genre = \"Fantasy\"", "page_count > 100"] : List String).filter
          (fun c => !(c == "")) with
        | [] => ""
        | [c] => c
        | cs => "(" ++ String.intercalate " && " cs ++ ")") :=
  ⟨rfl, (and_or_drop_empty_operands "and" " && "
    [WhereExpr.func "eq" ["genre"] (.scalar (.str "Fantasy")),
      WhereExpr.func "gt" ["page_count"] (.scalar (.num 100))]
    ["genre = \"Fantasy\"", "page_count > 100"] (Or.inl ⟨rfl, rfl⟩) rfl).2⟩

/-- C6: the value formatter is a total function mapping `null` and booleans to
bare literals, numbers to their unquoted decimal rendering, strings to a
double-quoted body in which each embedded quote is escaped as `\"` and nothing
else is touched (a quote-free string passes through unchanged), `Date`s to
their double-quoted ISO rendering, and any other value to its double-quoted
string coercion. -/
theorem formatValue_total_mapping :
    formatValue .null = "null" ∧
    formatValue (.bool true) = "true" ∧
    formatValue (.bool false) = "false" ∧
    (∀ n : Int, formatValue (.num n) = toString n) ∧
    (∀ s : String, (formatValue (.str s)).data =
      '"' :: (s.data.flatMap (fun c => if c = '"' then ['\\', '"'] else [c]) ++ ['"'])) ∧
    (∀ s : String, (∀ c ∈ s.data, c ≠ '"') → formatValue (.str s) = "\"" ++ s ++ "\"") ∧
    (∀ iso : String, formatValue (.date iso) = "\"" ++ iso ++ "\"") ∧
    (∀ raw : String, formatValue (.other raw) = "\"" ++ raw ++ "\"") := by
  refine ⟨rfl, rfl, rfl, fun n => rfl, ?_, ?_, fun iso => rfl, fun raw => rfl⟩
  · intro s
    show ("\"" ++ escapeQuotes s ++ "\"").data = _
    rw [show escapeQuotes s = ⟨escapeQuotesAux s.data⟩ from rfl, escapeQuotesAux_eq_flatMap]
    simp
  · intro s h
    show "\"" ++ escapeQuotes s ++ "\"" = "\"" ++ s ++ "\""
    rw [show escapeQuotes s = ⟨escapeQuotesAux s.data⟩ from rfl, escapeQuotesAux_of_no_quote _ h]

/-- Witness for C6 at a quote-free string. -/
theorem formatValue_total_mapping_witness :
    (∀ c ∈ ("Fantasy" : String).data, c ≠ '"') ∧
    formatValue (.str "Fantasy") = "\"" ++ "Fantasy" ++ "\"" :=
  ⟨by decide, formatValue_total_mapping.2.2.2.2.2.1 "Fantasy" (by decide)⟩

/-- C7: the realtime event handler maps `create` to an insert of the event's
record, `update` to an update of the record, and `delete` to a removal keyed
by the record's id, each event producing exactly one batch that is applied as
one atomic step, and a delivered event sequence is applied strictly in
delivery order (processing a concatenation equals processing the prefix and
then the suffix). -/
theorem realtime_event_mapping_and_order :
    (∀ r : PBRecord, eventHandler ⟨"create", r⟩ = [.writeInsert r]) ∧
    (∀ r : PBRecord, eventHandler ⟨"update", r⟩ = [.writeUpdate r]) ∧
    (∀ r : PBRecord, eventHandler ⟨"delete", r⟩ = [.writeDelete r.id]) ∧
    (∀ (coll : LocalCollection) (e : RealtimeEvent),
      processEvents coll [e] = applyBatch coll (eventHandler e)) ∧
    (∀ (coll : LocalCollection) (es1 es2 : List RealtimeEvent),
      processEvents coll (es1 ++ es2) = processEvents (processEvents coll es1) es2) := by
  refine ⟨fun r => rfl, fun r => rfl, fun r => rfl, fun coll e => rfl, fun coll es1 es2 => ?_⟩
  unfold processEvents
  exact List.foldl_append _ _ es1 es2

/-- C8: the sort translator returns the empty string for an absent order-by;
a single entry is rendered as its joined field path prefixed with `-` exactly
when its direction is `desc`; and rendering a concatenation of order-specs
splits as the renderings joined with `,` in input order (so entry order is
preserved exactly). -/
theorem translateSort_renders_in_input_order :
    convertToPocketBaseSort none = "" ∧
    (∀ e : SortEntry, convertToPocketBaseSort (some [e]) =
      (if e.direction = "desc" then "-" else "") ++ String.intercalate "." e.field) ∧
    (∀ l1 l2 : List SortEntry, l1 ≠ [] → l2 ≠ [] →
      convertToPocketBaseSort (some (l1 ++ l2)) =
        convertToPocketBaseSort (some l1) ++ "," ++ convertToPocketBaseSort (some l2)) := by
  refine ⟨rfl, ?_, ?_⟩
  · intro e
    show String.intercalate ","
      [(if e.direction = "desc" then "-" else "") ++ String.intercalate "." e.field] = _
    rw [intercalate_cons]
    apply String.ext
    simp [joinParts]
  · intro l1 l2 h1 h2
    show String.intercalate "," ((l1 ++ l2).map _) = _
    rw [List.map_append]
    exact intercalate_append_of_ne_nil ","
      (l1.map _) (l2.map _)
      (fun hc => h1 (List.map_eq_nil_iff.mp hc)) (fun hc => h2 (List.map_eq_nil_iff.mp hc))

/-- Witness for C8: a two-entry order-spec split as prefix and suffix. -/
theorem translateSort_renders_in_input_order_witness :
    (([⟨["created"], "desc"⟩] : List SortEntry) ≠ []) ∧
    (([⟨["name"], "asc"⟩] : List SortEntry) ≠ []) ∧
    convertToPocketBaseSort (some ([⟨["created"], "desc"⟩] ++ [⟨["name"], "asc"⟩])) =
      convertToPocketBaseSort (some [⟨["created"], "desc"⟩]) ++ "," ++
        convertToPocketBaseSort (some [⟨["name"], "asc"⟩]) :=
  ⟨by decide, by decide,
    translateSort_renders_in_input_order.2.2 [⟨["created"], "desc"⟩] [⟨["name"], "asc"⟩]
      (by decide) (by decide)⟩

/-- C9: once a key's record has been deleted from the state store, none of the
asynchronous continuations that may complete later — the channel-open success
continuation, the reconnect procedure, any tail of its retry loop, or the
channel-open failure continuation — ever re-inserts an entry for that key. -/
theorem deleted_subscription_never_resurrected (store : SubscriptionStore)
    (recordId : Option String) (handle : Nat) (outcomes : Nat → Option Nat)
    (fuel : Nat) (st : SubscriptionState)
    (h : storeLookup store (recordId.getD "*") = none) :
    storeLookup (setupSubscriptionThen store (recordId.getD "*") handle)
      (recordId.getD "*") = none ∧
    storeLookup (handleReconnection outcomes store recordId).1 (recordId.getD "*") = none ∧
    storeLookup (reconnectLoop outcomes (recordId.getD "*") fuel st store).1
      (recordId.getD "*") = none ∧
    storeLookup (setupSubscriptionCatch outcomes store recordId).1
      (recordId.getD "*") = none := by
  refine ⟨storeLookup_update_none h, handleReconnection_preserves_absent _ _ _ h,
    reconnectLoop_preserves_absent _ _ _ _ _ h, ?_⟩
  unfold setupSubscriptionCatch
  exact handleReconnection_preserves_absent _ _ _ (storeLookup_delete_self _ _)

/-- Witness for C9 at the empty store and collection-wide key. -/
theorem deleted_subscription_never_resurrected_witness :
    storeLookup ([] : SubscriptionStore) "*" = none ∧
    (storeLookup (setupSubscriptionThen [] "*" 7) "*" = none ∧
      storeLookup (handleReconnection (fun _ => none) [] none).1 "*" = none ∧
      storeLookup (reconnectLoop (fun _ => none) "*" 3 ⟨0, none, 0, false⟩ []).1 "*" = none ∧
      storeLookup (setupSubscriptionCatch (fun _ => none) [] none).1 "*" = none) :=
  ⟨rfl, deleted_subscription_never_resurrected [] none 7 (fun _ => none) 3 ⟨0, none, 0, false⟩ rfl⟩

/-- C10: an event whose action is none of `create`, `update`, `delete` makes
the handler open a batch containing no write at all, and applying that event
leaves the local collection exactly unchanged. -/
theorem unknown_action_leaves_collection_unchanged (e : RealtimeEvent)
    (coll : LocalCollection)
    (h : e.action ∉ (["create", "update", "delete"] : List String)) :
    eventHandler e = [] ∧ processEvents coll [e] = coll := by
  have h1 : e.action ≠ "create" := fun hc => h (by simp [hc])
  have h2 : e.action ≠ "update" := fun hc => h (by simp [hc])
  have h3 : e.action ≠ "delete" := fun hc => h (by simp [hc])
  have hev : eventHandler e = [] := by
    unfold eventHandler
    rw [if_neg h1, if_neg h2, if_neg h3]
  refine ⟨hev, ?_⟩
  show applyBatch coll (eventHandler e) = coll
  rw [hev]
  rfl

/-- Witness for C10 at an unrecognised action. -/
theorem unknown_action_leaves_collection_unchanged_witness :
    ((⟨"noop", ⟨"r1", "x"⟩⟩ : RealtimeEvent).action ∉
      (["create", "update", "delete"] : List String)) ∧
    (eventHandler ⟨"noop", ⟨"r1", "x"⟩⟩ = [] ∧
      processEvents [⟨"a", "y"⟩] [⟨"noop", ⟨"r1", "x"⟩⟩] = [⟨"a", "y"⟩]) :=
  ⟨by decide, unknown_action_leaves_collection_unchanged ⟨"noop", ⟨"r1", "x"⟩⟩ [⟨"a", "y"⟩]
    (by decide)⟩

end Pbtsdb
